import Mathlib

/-!
Verification of the extraction pipeline and crawl policy of the
classicist.org scraper.  The definitions below are shallow embeddings of
the Python code in `scraper/parsers.py`, `scraper/scraper_core.py` and
`scraper/commands.py` (including the JavaScript snippets those modules
execute in the page context).  HTML documents are modelled as trees of
elements and text nodes; BeautifulSoup / DOM queries become list
traversals in document (preorder) order.
-/

namespace ClassicistScraper

/-- Whitespace predicate shared by Python `str.strip` and JS `String.trim`
(ASCII fragment, which is what the scraped strings use). -/
def isPySpace (c : Char) : Bool :=
  c == ' ' || c == '\t' || c == '\n' || c == '\r' || c == '\x0b' || c == '\x0c'

/-- Python `str.strip()` / JS `trim()` on the underlying character list. -/
def pyStripList (l : List Char) : List Char :=
  ((l.dropWhile isPySpace).reverse.dropWhile isPySpace).reverse

/-- Python `str.strip()` / JS `String.prototype.trim`. -/
def pyStrip (s : String) : String :=
  String.mk (pyStripList s.data)

/-- Python `str.lower()` / JS `toLowerCase` (per-character lowering, the
same as `String.toLower`, spelled out on the character list). -/
def pyLower (s : String) : String :=
  String.mk (s.data.map Char.toLower)

/-- Substring containment on character lists, as in Python `in` and
JS `String.prototype.includes`. -/
def containsSub (hay needle : List Char) : Bool :=
  match hay with
  | [] => needle.isEmpty
  | c :: t => needle.isPrefixOf (c :: t) || containsSub t needle

/-- `strContains hay needle` holds when `needle` occurs inside `hay`. -/
def strContains (hay needle : String) : Bool :=
  containsSub hay.data needle.data

/-- Split a character list on every occurrence of a (nonempty) separator,
scanning left to right, as Python `str.split(sep)` and JS `split(sep)` do.
The fuel argument is a structural-termination device; it starts at the
list length, every recursive call consumes at least one character, and
the zero-fuel branch is unreachable. -/
def splitOnFuel (sep : List Char) : Nat → List Char → List (List Char)
  | _, [] => [[]]
  | 0, _ :: _ => [[]]
  | fuel + 1, c :: rest =>
    if sep.isPrefixOf (c :: rest) then
      [] :: splitOnFuel sep fuel (rest.drop (sep.length - 1))
    else
      match splitOnFuel sep fuel rest with
      | [] => [[c]]
      | p :: ps => (c :: p) :: ps

/-- Split a character list on a separator (see `splitOnFuel`). -/
def splitOnList (sep l : List Char) : List (List Char) :=
  splitOnFuel sep l.length l

/-- Python / JS string split on a literal separator. -/
def pySplit (s sep : String) : List String :=
  (splitOnList sep.data s.data).map String.mk

/-- Join a list of strings with a separator, as Python `sep.join`. -/
def joinSep (sep : String) : List String → String
  | [] => ""
  | [s] => s
  | s :: rest => s ++ sep ++ joinSep sep rest

/-- Strip every part and drop the parts that become empty; this is what
BeautifulSoup `get_text(strip=True)` does to the collected strings. -/
def cleanedParts (l : List String) : List String :=
  (l.map pyStrip).filter (fun s => !(s == ""))

/-- Order-preserving deduplication with an accumulator of already seen
strings, as Python `dict.fromkeys` produces. -/
def dedupAux (seen : List String) : List String → List String
  | [] => []
  | x :: xs => if seen.contains x then dedupAux seen xs else x :: dedupAux (x :: seen) xs

/-- `list(dict.fromkeys(l))`: keep the first occurrence of every string. -/
def dedupFirst (l : List String) : List String :=
  dedupAux [] l

/-- Order-preserving deduplication of (name, type) author records keyed by
the lower-cased name, as the `seen` set in `_extract_authors`. -/
def dedupByLowerAux (seen : List String) : List (String × String) → List (String × String)
  | [] => []
  | a :: as =>
    if seen.contains (pyLower a.1) then dedupByLowerAux seen as
    else a :: dedupByLowerAux (pyLower a.1 :: seen) as

/-- Author dedup of `_extract_authors`, starting from an empty seen set. -/
def dedupByLower (l : List (String × String)) : List (String × String) :=
  dedupByLowerAux [] l

/-! ## The document model

A parsed HTML page is a list of top-level nodes; each node is an element
(tag, attributes, children) or a text node.  BeautifulSoup `find_all` /
CSS queries return elements in document (preorder) order. -/

/-- A node of the parsed HTML tree. -/
inductive Node where
  | elem (tag : String) (attrs : List (String × String)) (children : List Node)
  | text (s : String)

/-- A parsed document: the list of top-level nodes. -/
abbrev Doc := List Node

/-- The tag of a node (text nodes have no tag). -/
def Node.tagOf : Node → String
  | .elem t _ _ => t
  | .text _ => ""

/-- The attribute list of a node. -/
def Node.attrsOf : Node → List (String × String)
  | .elem _ a _ => a
  | .text _ => []

/-- Attribute lookup, as `element.get(attr)` / `getAttribute`. -/
def getAttr (n : Node) (a : String) : Option String :=
  (n.attrsOf.find? (fun p => p.1 == a)).map (fun p => p.2)

mutual

/-- The elements contributed by one node in document (preorder) order. -/
def elemsN : Node → List Node
  | .text _ => []
  | .elem t a cs => Node.elem t a cs :: elemsL cs

/-- All elements of a forest in document (preorder) order, as
BeautifulSoup `find_all` traverses them. -/
def elemsL : List Node → List Node
  | [] => []
  | n :: ns => elemsN n ++ elemsL ns

end

mutual

/-- The text-node strings contributed by one node in document order. -/
def stringsN : Node → List String
  | .text s => [s]
  | .elem _ _ cs => stringsL cs

/-- All text-node strings of a forest in document order, as
`get_text` collects them. -/
def stringsL : List Node → List String
  | [] => []
  | n :: ns => stringsN n ++ stringsL ns

end

mutual

/-- The text-node strings of one node, skipping banned subtrees. -/
def cleanN (banned : List String) : Node → List String
  | .text s => [s]
  | .elem t _ cs => if banned.contains t then [] else cleanL banned cs

/-- Text-node strings of a forest, skipping every subtree whose root tag
is in `banned`; this models `decompose()` of those tags before
`get_text`. -/
def cleanL (banned : List String) : List Node → List String
  | [] => []
  | n :: ns => cleanN banned n ++ cleanL banned ns

end

mutual

/-- One node with banned subtrees removed (empty when the node itself is
banned). -/
def pruneN (banned : List String) : Node → List Node
  | .text s => [.text s]
  | .elem t a cs =>
    if banned.contains t then [] else [.elem t a (pruneL banned cs)]

/-- Remove every subtree whose root tag is in `banned`, as `decompose()`
mutating the whole soup. -/
def pruneL (banned : List String) : List Node → List Node
  | [] => []
  | n :: ns => pruneN banned n ++ pruneL banned ns

end

/-! ## CSS selectors

Only the selector shapes that actually occur in `parsers.py` are needed:
tag selectors, class selectors, id selectors, attribute substring tests,
attribute presence tests and attribute equality tests. -/

/-- The simple CSS selector shapes used by `HTMLParser`. -/
inductive Sel where
  | tagSel (t : String)
  | clsSel (c : String)
  | idSel (i : String)
  | tagAttrSub (t a sub : String)
  | attrSub (a sub : String)
  | tagAttrPresent (t a : String)
  | tagAttrEq (t a v : String)

/-- Whitespace-separated tokens of the class attribute, used for CSS
class matching. -/
def classTokens (n : Node) : List String :=
  (pySplit ((getAttr n "class").getD "") " ").filter (fun s => !(s == ""))

/-- Whether an element matches a simple selector. -/
def selMatches : Sel → Node → Bool
  | .tagSel t, n => n.tagOf == t
  | .clsSel c, n => (classTokens n).contains c
  | .idSel i, n => getAttr n "id" == some i
  | .tagAttrSub t a sub, n => n.tagOf == t && strContains ((getAttr n a).getD "") sub
  | .attrSub a sub, n =>
    match getAttr n a with
    | some v => strContains v sub
    | none => false
  | .tagAttrPresent t a, n => n.tagOf == t && (getAttr n a).isSome
  | .tagAttrEq t a v, n => n.tagOf == t && getAttr n a == some v

/-- `soup.select_one(sel)`: the first matching element in document order. -/
def selectOne (doc : Doc) (s : Sel) : Option Node :=
  (elemsL doc).find? (selMatches s)

/-! ## Content Locator (`HTMLParser.extract_main_content`) -/

/-- The ordered structural selector list `self.content_selectors`. -/
def content_selectors : List Sel :=
  [ .tagSel "main", .tagSel "article", .clsSel "post-content",
    .clsSel "entry-content", .clsSel "content", .idSel "content",
    .tagAttrSub "div" "class" "content", .tagAttrSub "div" "class" "post" ]

/-- `element.get_text(separator, strip=True)` over a list of collected
strings: strip each string, drop the empty ones, join with the
separator. -/
def getTextParts (sep : String) (parts : List String) : String :=
  joinSep sep (cleanedParts parts)

/-- The cleaned text of a matched container: `script`/`style`/`nav`/`footer`
descendants are decomposed, then `get_text(separator='\n', strip=True)`. -/
def cleanedContainerText (n : Node) : String :=
  match n with
  | .text s => getTextParts "\n" [s]
  | .elem _ _ cs => getTextParts "\n" (cleanL ["script", "style", "nav", "footer"] cs)

/-- `len(tag.get_text(strip=True))`, the size measure used to pick the
largest text block (default separator, each string stripped). -/
def stripText (n : Node) : String :=
  getTextParts "" (stringsL [n])

/-- `tag.get_text(separator='\n', strip=True)` of a single node. -/
def nodeText (n : Node) : String :=
  getTextParts "\n" (stringsL [n])

/-- The soup after `script` and `style` elements are decomposed at the
start of `_extract_largest_text_block`. -/
def prunedDoc (doc : Doc) : Doc :=
  pruneL ["script", "style"] doc

/-- The candidate text blocks of `_extract_largest_text_block`: every
`p`/`div`/`section`/`article` element (after pruning) whose stripped text
is longer than 100 characters. -/
def bigElems (doc : Doc) : List Node :=
  (elemsL (prunedDoc doc)).filter
    (fun e => ["p", "div", "section", "article"].contains e.tagOf
      && decide (100 < (stripText e).length))

/-- Python `max(elements, key=...)`: the first element attaining the
maximal measure. -/
def firstMaxBy (f : Node → Nat) (x : Node) (xs : List Node) : Node :=
  xs.foldl (fun b y => if f y > f b then y else b) x

/-- `HTMLParser._extract_largest_text_block`. -/
def extract_largest_text_block (doc : Doc) : String :=
  match bigElems doc with
  | [] => getTextParts "\n" (stringsL (prunedDoc doc))
  | e :: es => nodeText (firstMaxBy (fun n => (stripText n).length) e es)

/-- `HTMLParser.extract_main_content`: try the structural selectors in
order; on the first selector with a match return the container's cleaned
text, otherwise fall back to the largest text block. -/
def extract_main_content (doc : Doc) : String :=
  match content_selectors.findSome? (fun s => selectOne doc s) with
  | some el => cleanedContainerText el
  | none => extract_largest_text_block doc

/-! ## Metadata Extractor (`HTMLParser.extract_metadata`)

The Python dict is modelled as an association list with Python insertion
semantics: assigning to an existing key replaces its value in place,
assigning a fresh key appends. -/

/-- Python `d[k] = v`. -/
def dictInsert (m : List (String × String)) (k v : String) : List (String × String) :=
  if m.any (fun p => p.1 == k) then
    m.map (fun p => if p.1 == k then (k, v) else p)
  else m ++ [(k, v)]

/-- Python `d.get(k)` on the association list. -/
def dictGet (m : List (String × String)) (k : String) : Option String :=
  (m.find? (fun p => p.1 == k)).map (fun p => p.2)

/-- Python `a or b` on optional strings (`None` and `''` are falsy). -/
def pyOr (a b : Option String) : Option String :=
  match a with
  | some s => if s == "" then b else some s
  | none => b

/-- Python `a or b` where `a` is an optional string and `b` a string. -/
def pyOrStr (a : Option String) (b : String) : String :=
  match a with
  | some s => if s == "" then b else s
  | none => b

/-- `element.get_text()` with default separator and no stripping,
followed by a single `.strip()` as in `extract_metadata`. -/
def rawTextStripped (n : Node) : String :=
  pyStrip (joinSep "" (stringsL [n]))

/-- The key/value contribution of one `meta` tag in the meta loop:
`name = meta.get('name') or meta.get('property')`,
`content = meta.get('content')`, kept only when both are truthy. -/
def metaKeyContent (e : Node) : Option (String × String) :=
  match pyOr (getAttr e "name") (getAttr e "property"), getAttr e "content" with
  | some k, some c => if k == "" || c == "" then none else some (k, c)
  | _, _ => none

/-- The ordered author selector list of `extract_metadata`. -/
def author_selectors : List Sel :=
  [ .tagAttrEq "meta" "name" "author", .tagAttrEq "meta" "property" "article:author",
    .clsSel "author", .clsSel "byline", .attrSub "class" "author" ]

/-- The ordered date selector list of `extract_metadata`. -/
def date_selectors : List Sel :=
  [ .tagAttrEq "meta" "property" "article:published_time",
    .tagAttrEq "meta" "name" "date", .tagAttrPresent "time" "datetime",
    .clsSel "date", .clsSel "published", .attrSub "class" "date" ]

/-- The value stored for the author: meta tags contribute their stripped
`content`, other elements their stripped text. -/
def authorValue (el : Node) : String :=
  if el.tagOf == "meta" then pyStrip ((getAttr el "content").getD "")
  else rawTextStripped el

/-- The value stored for the date: meta tags contribute their stripped
`content`, other elements `get('datetime') or get_text().strip()`. -/
def dateValue (el : Node) : String :=
  if el.tagOf == "meta" then pyStrip ((getAttr el "content").getD "")
  else pyOrStr (getAttr el "datetime") (rawTextStripped el)

/-- The meta tags of the document in document order. -/
def metasOf (doc : Doc) : List Node :=
  (elemsL doc).filter (fun e => e.tagOf == "meta")

/-- One iteration of the meta-tag loop: insert the tag's key/content pair
when both are truthy. -/
def metaFoldStep (m : List (String × String)) (e : Node) : List (String × String) :=
  match metaKeyContent e with
  | some kc => dictInsert m kc.1 kc.2
  | none => m

/-- `HTMLParser.extract_metadata`: title, then the meta-tag loop, then the
author and date selector cascades. -/
def extract_metadata (doc : Doc) : List (String × String) :=
  let m1 :=
    match (elemsL doc).find? (fun e => e.tagOf == "title") with
    | some t => dictInsert [] "title" (rawTextStripped t)
    | none => []
  let m2 := (metasOf doc).foldl metaFoldStep m1
  let m3 :=
    match author_selectors.findSome? (fun s => selectOne doc s) with
    | some el => dictInsert m2 "author" (authorValue el)
    | none => m2
  match date_selectors.findSome? (fun s => selectOne doc s) with
  | some el => dictInsert m3 "date" (dateValue el)
  | none => m3

/-! ## Keyword and author extraction (`DataExtractor`)

The body-text regular expressions (`re.findall` over `soup.get_text()`)
are taken as parameters: the word lists they produce are universally
quantified, so every theorem below holds for the actual regex output. -/

/-- The stop-word set `common_words` of `_extract_keywords`. -/
def commonWords : List String :=
  ["The", "And", "For", "With", "That", "This", "From", "Have", "Not", "But", "You"]

/-- The comma-split, stripped, non-empty entries of the meta keywords
content, as the list comprehension in `_extract_keywords`. -/
def metaKeywordEntries (doc : Doc) : List String :=
  match (elemsL doc).find? (fun e => e.tagOf == "meta" && getAttr e "name" == some "keywords") with
  | some m => ((pySplit ((getAttr m "content").getD "") ",").map pyStrip).filter (fun s => !(s == ""))
  | none => []

/-- The combined keyword candidate list before deduplication:
meta-keyword entries, then the regex words that pass the stop-word and
length filters. `bodyWords` stands for the output of
`re.findall(..., soup.get_text())`. -/
def keywordCandidates (doc : Doc) (bodyWords : List String) : List String :=
  metaKeywordEntries doc ++
    bodyWords.filter (fun w => !(commonWords.contains w) && decide (3 < w.length))

/-- `DataExtractor._extract_keywords`: candidates, `dict.fromkeys`
deduplication, capped at 20. -/
def extract_keywords (doc : Doc) (bodyWords : List String) : List String :=
  (dedupFirst (keywordCandidates doc bodyWords)).take 20

/-- The author candidate list before deduplication: the meta author (when
present) followed by the regex pattern matches. `patternMatches` stands
for the concatenated `re.findall` outputs of the three author patterns. -/
def authorCandidates (doc : Doc) (patternMatches : List String) : List (String × String) :=
  (match (elemsL doc).find? (fun e => e.tagOf == "meta" && getAttr e "name" == some "author") with
   | some m => [(pyStrip ((getAttr m "content").getD ""), "meta")]
   | none => []) ++
    patternMatches.map (fun m => (pyStrip m, "extracted"))

/-- `DataExtractor._extract_authors`: candidates deduplicated on the
lower-cased name, first occurrence kept. -/
def extract_authors (doc : Doc) (patternMatches : List String) : List (String × String) :=
  dedupByLower (authorCandidates doc patternMatches)

/-! ## Page-type classification (`DataExtractor._determine_page_type`) -/

/-- `DataExtractor._determine_page_type`: pure substring tests on the
lower-cased URL (the soup argument is ignored by the Python code). -/
def determine_page_type (doc : Doc) (url : String) : String :=
  let u := pyLower url
  let _ := doc
  if strContains u "/article/" || strContains u "/post/" then "article"
  else if strContains u "/issue/" || strContains u "/issues/" then "issue"
  else if strContains u "/archive" || strContains u "/archives/" then "archive"
  else if strContains u "about" then "about"
  else "homepage"

/-! ## Directory Record Extractor (`_extract_members_from_directory`)

The JavaScript run in the page context queries each `.list-item` element
for a title anchor, a certified marker and class tokens.  One listing
item is modelled by the data those queries can observe. -/

/-- The observable content of one `.list-item` element. -/
structure ListItem where
  nameAnchor : Option (String × String)
  dataTitle : Option String
  hasCertified : Bool
  className : String

/-- One extracted member record; fields the JS sets conditionally are
options. -/
structure Member where
  name : Option String
  detail_url : Option String
  data_title : Option String
  certified : Bool
  profession_id : Option String
  chapter_id : Option String
  level_id : Option String
deriving DecidableEq

/-- The first class token with the given prefix, with the prefix removed
(`classList.find(startsWith).replace(prefix, '')`; `replace` removes the
first occurrence, which is the prefix whenever `find` succeeded). -/
def classIdWith (pre : String) (className : String) : Option String :=
  ((pySplit className " ").find? (fun c => pre.isPrefixOf c)).map
    (fun c => String.mk (c.data.drop pre.data.length))

/-- The member record built from one listing item. -/
def extractMember (it : ListItem) : Member :=
  { name := it.nameAnchor.map (fun a => pyStrip a.1)
    detail_url := it.nameAnchor.map (fun a => a.2)
    data_title := it.dataTitle
    certified := it.hasCertified
    profession_id := classIdWith "profession-" it.className
    chapter_id := classIdWith "chapter-" it.className
    level_id := classIdWith "level-" it.className }

/-- Whether the JS pushes the member (`if (member.name)`): a name was
found and its trimmed text is truthy. -/
def memberKept (m : Member) : Bool :=
  !((m.name.getD "") == "")

/-- `_extract_members_from_directory`: build a member per listing item,
keep those with a truthy name. -/
def extract_members (items : List ListItem) : List Member :=
  (items.map extractMember).filter memberKept

/-! ## Crawl entry points (`scrape_members_directory`,
`_scrape_generic_page`)

The transport (Playwright navigation plus in-page evaluation) is an
oracle `fetch` returning either the observed page payload or the message
of the raised exception; the `try`/`except` blocks of the Python code
become a match on that result.  The wall-clock timestamp field is not
modelled. -/

/-- The result record of `_scrape_generic_page`. -/
structure GenericResult (α : Type) where
  url : String
  data : List α
  errors : List String
deriving DecidableEq

/-- `ClassicistScraper._scrape_generic_page`: one fetch; on success the
page payload is appended, on failure a formatted error is recorded. -/
def scrape_generic_page {α : Type} (fetch : String → Except String α) (url : String) :
    GenericResult α :=
  match fetch url with
  | .ok pageData => { url := url, data := [pageData], errors := [] }
  | .error e => { url := url, data := [],
                  errors := ["Failed to scrape page " ++ url ++ ": " ++ e] }

/-- The result record of `scrape_members_directory`. -/
structure DirectoryResult where
  url : String
  members : List Member
  errors : List String
deriving DecidableEq

/-- `ClassicistScraper.scrape_members_directory`: one fetch of the
directory page; on success the listing items are extracted, on failure a
formatted error is recorded. -/
def scrape_members_directory (fetch : String → Except String (List ListItem)) (url : String) :
    DirectoryResult :=
  match fetch url with
  | .ok items => { url := url, members := extract_members items, errors := [] }
  | .error e => { url := url, members := [],
                  errors := ["Failed to scrape directory " ++ url ++ ": " ++ e] }

/-! ## Detail Record Extractor: the about merge (`commands.py`,
strategy 2 of `_scrape_single_member_details`)

The candidate stream is the flattened sequence of elements produced by
the ordered `aboutSelectors` list; each candidate carries its raw text
and whether `element.closest('footer, .footer')` is non-null.  Note the
word count: the page script calls `text.split('\s+')`, and in a JS
string literal `'\s+'` is the two-character string `s+`, so the split is
on the literal substring `s+`, not on whitespace. -/

/-- The qualification test applied to one about candidate (text already
trimmed). -/
def aboutQualifies (inFooter : Bool) (text : String) : Bool :=
  decide (50 < text.length) && decide (text.length < 2000) && !inFooter &&
    !(strContains text "Copyright") && !(strContains text "All rights reserved") &&
    (let w := (pySplit text "s+").length
     decide (10 < w) && decide (w < 500))

/-- The about merge over the candidate stream: a qualifying candidate
replaces the current value when none is set or when it is strictly
longer. -/
def aboutMerge (cands : List (Bool × String)) : String :=
  cands.foldl
    (fun about c =>
      let text := pyStrip c.2
      if aboutQualifies c.1 text && ((about == "") || decide (about.length < text.length))
      then text else about) ""

/-- The qualifying trimmed texts of a candidate stream, in order. -/
def aboutQualifying (cands : List (Bool × String)) : List String :=
  (cands.map (fun c => (c.1, pyStrip c.2))).filterMap
    (fun c => if aboutQualifies c.1 c.2 then some c.2 else none)

/-- First-longest selection: the first element whose length is maximal
(empty string when the list is empty). -/
def firstLongest (l : List String) : String :=
  l.foldl (fun b t => if b.length < t.length then t else b) ""

/-! ## Detail Record Extractor: address and phone parsing
(`commands.py`, strategy 1) -/

/-- JS `\d`. -/
def isDigitCh (c : Char) : Bool :=
  '0' ≤ c && c ≤ '9'

/-- JS `\s` (ASCII fragment). -/
def isJsSpace (c : Char) : Bool :=
  isPySpace c

/-- Consume exactly `n` digits. -/
def takeDigits : Nat → List Char → Option (List Char)
  | 0, l => some l
  | n + 1, c :: t => if isDigitCh c then takeDigits n t else none
  | _ + 1, [] => none

/-- Consume one expected character. -/
def expectChar (c : Char) : List Char → Option (List Char)
  | d :: t => if d == c then some t else none
  | [] => none

/-- Match `\(\d{3}\)\s*\d{3}-\d{4}` at the start of the list. -/
def matchParenPhone (l : List Char) : Bool :=
  (do
    let l ← expectChar '(' l
    let l ← takeDigits 3 l
    let l ← expectChar ')' l
    let l := l.dropWhile isJsSpace
    let l ← takeDigits 3 l
    let l ← expectChar '-' l
    let l ← takeDigits 4 l
    pure l).isSome

/-- Match `\d{3}-\d{3}-\d{4}` at the start of the list. -/
def matchDashPhone (l : List Char) : Bool :=
  (do
    let l ← takeDigits 3 l
    let l ← expectChar '-' l
    let l ← takeDigits 3 l
    let l ← expectChar '-' l
    let l ← takeDigits 4 l
    pure l).isSome

/-- JS `/\(\d{3}\)\s*\d{3}-\d{4}|\d{3}-\d{3}-\d{4}/.test(line)`: a match
may start at any position. -/
def phoneTest : List Char → Bool
  | [] => false
  | c :: t => matchParenPhone (c :: t) || matchDashPhone (c :: t) || phoneTest t

/-- Whether a line contains a phone number. -/
def linePhoneTest (s : String) : Bool :=
  phoneTest s.data

/-- The trimmed non-empty lines of the address block
(`split('\n').map(trim).filter(line)`). -/
def addressLines (addressText : String) : List String :=
  ((pySplit addressText "\n").map pyStrip).filter (fun s => !(s == ""))

/-- The phone loop: scan the lines after the first for the first one
containing a phone pattern (`for i = 1; ...; break`). -/
def phoneFromRest : List String → String
  | [] => ""
  | l :: ls => if linePhoneTest l then l else phoneFromRest ls

/-- The city/state/phone triple produced by strategy 1. -/
structure AddressResult where
  city : String
  state : String
  phone : String
deriving DecidableEq

/-- The address parsing of `_scrape_single_member_details`: first line
split on commas gives city and state (when at least two fields exist),
the following lines are scanned for a phone number. -/
def parseAddress (addressText : String) : AddressResult :=
  let lines := addressLines addressText
  let base :=
    match lines with
    | [] => { city := "", state := "", phone := "" : AddressResult }
    | l0 :: _ =>
      let parts := pySplit l0 ","
      if 2 ≤ parts.length then
        { city := pyStrip (parts.getD 0 ""), state := pyStrip (parts.getD 1 ""), phone := "" }
      else
        { city := l0, state := "", phone := "" }
  { base with phone := phoneFromRest (lines.drop 1) }

/-- Follows the claim's wording, for comparison with the code: state is
everything after the first comma of the first line, trimmed. -/
def claimStateAfterFirstComma (line : String) : String :=
  pyStrip (joinSep "," ((pySplit line ",").drop 1))

/-! ## Social-media platform classification

The same conditional chain appears in `_scrape_member_detail`
(`scraper_core.py`) and strategy 3 of `_scrape_single_member_details`
(`commands.py`). -/

/-- The platform substrings in the order the conditional chain tests
them. -/
def socialPlatforms : List String :=
  ["facebook", "twitter", "linkedin", "instagram", "youtube"]

/-- The platform assigned to a collected anchor's href. -/
def classifyPlatform (href : String) : String :=
  if strContains href "facebook" then "facebook"
  else if strContains href "twitter" then "twitter"
  else if strContains href "linkedin" then "linkedin"
  else if strContains href "instagram" then "instagram"
  else if strContains href "youtube" then "youtube"
  else "other"

/-! ## Crawl Orchestrator (depth-bounded crawl)

Modelled from the spec: the depth-bounded generic crawl (seed fetch,
link classification, unique in-scope frontier capped at 10, sequential
child fetches with per-child error isolation) is implemented by the
repository's synchronous scraper variant, which is not among the
provided source files; only its callers and the export layer are.  The
definition follows section 4.7 of the specification.  The link
classifier is a parameter `inScope`; the inter-request delay has no
observable effect on the result and is not modelled. -/

/-- A fetched page as the spec-modelled orchestrator consumes it: the
extracted record and the discovered link URLs. -/
structure SpecPage (α : Type) where
  record : α
  links : List String

/-- The result of a spec-modelled generic crawl. -/
structure SpecCrawlResult (α : Type) where
  pages : List α
  errors : List String
deriving DecidableEq

/-- Modelled from the spec: the child frontier of a seed page — unique
in-scope link URLs in first-seen order, truncated to the cap of 10. -/
def specFrontier (inScope : String → Bool) (links : List String) : List String :=
  (dedupFirst (links.filter inScope)).take 10

/-- Modelled from the spec: one child step — fetch and extract, recording
a failure as a formatted error without stopping. -/
def specChildStep {α : Type} (fetch : String → Except String (SpecPage α))
    (acc : SpecCrawlResult α) (child : String) : SpecCrawlResult α :=
  match fetch child with
  | .ok p => { acc with pages := acc.pages ++ [p.record] }
  | .error e => { acc with errors := acc.errors ++ ["Failed to scrape page " ++ child ++ ": " ++ e] }

/-- Modelled from the spec: the depth-bounded crawl.  A seed-fetch
failure yields an empty result with a single error; with depth greater
than 1 the frontier children are fetched sequentially. -/
def specCrawl {α : Type} (fetch : String → Except String (SpecPage α))
    (inScope : String → Bool) (url : String) (depth : Nat) : SpecCrawlResult α :=
  match fetch url with
  | .error e => { pages := [], errors := ["Failed to scrape page " ++ url ++ ": " ++ e] }
  | .ok seed =>
    if 1 < depth then
      (specFrontier inScope seed.links).foldl (specChildStep fetch)
        { pages := [seed.record], errors := [] }
    else
      { pages := [seed.record], errors := [] }

/-! ## Helper lemmas -/

theorem isPrefixOf_append_self (l t : List Char) : l.isPrefixOf (l ++ t) = true := by
  rw [List.isPrefixOf_iff_prefix]
  exact List.prefix_append l t

theorem containsSub_nil_needle (hay : List Char) : containsSub hay [] = true := by
  cases hay with
  | nil => rfl
  | cons c t => simp [containsSub, List.isPrefixOf]

theorem containsSub_middle (pre mid post : List Char) :
    containsSub (pre ++ (mid ++ post)) mid = true := by
  induction pre with
  | nil =>
    cases mid with
    | nil => simpa using containsSub_nil_needle post
    | cons m mt =>
      simp only [List.nil_append]
      simp [containsSub]
  | cons c pre ih =>
    simp [containsSub, ih]

theorem strContains_middle (a b c : String) : strContains (a ++ b ++ c) b = true := by
  unfold strContains
  have h : (a ++ b ++ c).data = a.data ++ (b.data ++ c.data) := by
    simp [String.data_append]
  rw [h]
  exact containsSub_middle _ _ _

theorem mem_dedupAux_not_seen {x : String} :
    ∀ (l seen : List String), x ∈ dedupAux seen l → x ∉ seen := by
  intro l
  induction l with
  | nil => intro seen h; simp [dedupAux] at h
  | cons y ys ih =>
    intro seen h
    by_cases hy : seen.contains y = true
    · rw [dedupAux, if_pos hy] at h
      exact ih seen h
    · rw [dedupAux, if_neg hy] at h
      rcases List.mem_cons.mp h with he | hm
      · subst he
        intro hc
        exact hy (by simpa using hc)
      · have := ih (y :: seen) hm
        intro hc
        exact this (List.mem_cons_of_mem y hc)

theorem dedupAux_nodup : ∀ (l seen : List String), (dedupAux seen l).Nodup := by
  intro l
  induction l with
  | nil => intro seen; simp [dedupAux]
  | cons y ys ih =>
    intro seen
    by_cases hy : seen.contains y = true
    · rw [dedupAux, if_pos hy]; exact ih seen
    · rw [dedupAux, if_neg hy]
      refine List.nodup_cons.mpr ⟨?_, ih (y :: seen)⟩
      intro hmem
      exact (mem_dedupAux_not_seen ys (y :: seen) hmem) (List.mem_cons_self y seen)

theorem dedupAux_sublist : ∀ (l seen : List String), (dedupAux seen l).Sublist l := by
  intro l
  induction l with
  | nil => intro seen; simp [dedupAux]
  | cons y ys ih =>
    intro seen
    by_cases hy : seen.contains y = true
    · rw [dedupAux, if_pos hy]; exact (ih seen).cons y
    · rw [dedupAux, if_neg hy]; exact (ih (y :: seen)).cons₂ y

theorem dedupFirst_nodup (l : List String) : (dedupFirst l).Nodup :=
  dedupAux_nodup l []

theorem dedupFirst_sublist (l : List String) : (dedupFirst l).Sublist l :=
  dedupAux_sublist l []

theorem mem_dedupByLowerAux_not_seen {x : String × String} :
    ∀ (l : List (String × String)) (seen : List String),
      x ∈ dedupByLowerAux seen l → pyLower x.1 ∉ seen := by
  intro l
  induction l with
  | nil => intro seen h; simp [dedupByLowerAux] at h
  | cons a as ih =>
    intro seen h
    by_cases ha : seen.contains (pyLower a.1) = true
    · rw [dedupByLowerAux, if_pos ha] at h
      exact ih seen h
    · rw [dedupByLowerAux, if_neg ha] at h
      rcases List.mem_cons.mp h with he | hm
      · subst he
        intro hc
        exact ha (by simpa using hc)
      · have := ih (pyLower a.1 :: seen) hm
        intro hc
        exact this (List.mem_cons_of_mem _ hc)

theorem dedupByLowerAux_lower_nodup :
    ∀ (l : List (String × String)) (seen : List String),
      ((dedupByLowerAux seen l).map (fun p => pyLower p.1)).Nodup := by
  intro l
  induction l with
  | nil => intro seen; simp [dedupByLowerAux]
  | cons a as ih =>
    intro seen
    by_cases ha : seen.contains (pyLower a.1) = true
    · rw [dedupByLowerAux, if_pos ha]; exact ih seen
    · rw [dedupByLowerAux, if_neg ha]
      simp only [List.map_cons]
      refine List.nodup_cons.mpr ⟨?_, ih (pyLower a.1 :: seen)⟩
      intro hmem
      rcases List.mem_map.mp hmem with ⟨b, hb, heq⟩
      have := mem_dedupByLowerAux_not_seen as (pyLower a.1 :: seen) hb
      exact this (heq ▸ List.mem_cons_self _ seen)

theorem dedupByLowerAux_sublist :
    ∀ (l : List (String × String)) (seen : List String),
      (dedupByLowerAux seen l).Sublist l := by
  intro l
  induction l with
  | nil => intro seen; simp [dedupByLowerAux]
  | cons a as ih =>
    intro seen
    by_cases ha : seen.contains (pyLower a.1) = true
    · rw [dedupByLowerAux, if_pos ha]; exact (ih seen).cons a
    · rw [dedupByLowerAux, if_neg ha]; exact (ih (pyLower a.1 :: seen)).cons₂ a

/-! ## C1: depth-bounded crawl, frontier cap -/

/-- The record a child fetch contributes to the page list, when it
succeeds. -/
def specPageOf {α : Type} (fetch : String → Except String (SpecPage α)) (c : String) :
    Option α :=
  match fetch c with
  | .ok p => some p.record
  | .error _ => none

/-- The error entry a child fetch contributes, when it fails. -/
def specErrorOf {α : Type} (fetch : String → Except String (SpecPage α)) (c : String) :
    Option String :=
  match fetch c with
  | .error e => some ("Failed to scrape page " ++ c ++ ": " ++ e)
  | .ok _ => none

theorem specCrawl_foldl {α : Type} (fetch : String → Except String (SpecPage α)) :
    ∀ (l : List String) (acc : SpecCrawlResult α),
      l.foldl (specChildStep fetch) acc =
        { pages := acc.pages ++ l.filterMap (specPageOf fetch),
          errors := acc.errors ++ l.filterMap (specErrorOf fetch) } := by
  intro l
  induction l with
  | nil => intro acc; simp
  | cons c cs ih =>
    intro acc
    rw [List.foldl_cons, ih]
    cases hf : fetch c with
    | ok p =>
      simp [specChildStep, hf, specPageOf, specErrorOf, List.filterMap_cons]
    | error e =>
      simp [specChildStep, hf, specPageOf, specErrorOf, List.filterMap_cons]

theorem specPage_error_length {α : Type} (fetch : String → Except String (SpecPage α)) :
    ∀ l : List String,
      (l.filterMap (specPageOf fetch)).length + (l.filterMap (specErrorOf fetch)).length
        = l.length := by
  intro l
  induction l with
  | nil => simp
  | cons c cs ih =>
    cases hf : fetch c with
    | ok p =>
      simp only [List.filterMap_cons, specPageOf, specErrorOf, hf]
      simp only [List.length_cons]
      omega
    | error e =>
      simp only [List.filterMap_cons, specPageOf, specErrorOf, hf]
      simp only [List.length_cons]
      omega

/-- C1: for a crawl with requested depth greater than 1 whose seed fetch
succeeds, the result consists of the seed record followed by one page or
one error per frontier child, where the frontier is the unique in-scope
links of the seed page in first-seen order truncated to 10; links beyond
the cap contribute neither pages nor errors, and at most 10 children are
fetched. -/
theorem crawl_caps_children {α : Type} (fetch : String → Except String (SpecPage α))
    (inScope : String → Bool) (url : String) (depth : Nat) (seed : SpecPage α)
    (hdepth : 1 < depth) (hseed : fetch url = Except.ok seed) :
    specCrawl fetch inScope url depth =
      { pages := seed.record :: (specFrontier inScope seed.links).filterMap (specPageOf fetch),
        errors := (specFrontier inScope seed.links).filterMap (specErrorOf fetch) } ∧
    (specFrontier inScope seed.links).length ≤ 10 ∧
    (specFrontier inScope seed.links).Nodup ∧
    (specFrontier inScope seed.links).Sublist (seed.links.filter inScope) ∧
    (specCrawl fetch inScope url depth).pages.length +
        (specCrawl fetch inScope url depth).errors.length =
      1 + (specFrontier inScope seed.links).length := by
  have hc : specCrawl fetch inScope url depth =
      (specFrontier inScope seed.links).foldl (specChildStep fetch)
        { pages := [seed.record], errors := [] } := by
    simp [specCrawl, hseed, hdepth]
  rw [specCrawl_foldl] at hc
  refine ⟨by simpa using hc, List.length_take_le 10 _, ?_, ?_, ?_⟩
  · exact (dedupFirst_nodup _).sublist (List.take_sublist 10 _)
  · exact (List.take_sublist 10 _).trans (dedupFirst_sublist _)
  · rw [hc]
    simp only [List.length_append, List.length_cons, List.length_nil]
    have := specPage_error_length fetch (specFrontier inScope seed.links)
    omega

/-- A seed page with 15 distinct in-scope child links, used to witness the
cap. -/
def crawlDemoLinks : List String :=
  ["l01", "l02", "l03", "l04", "l05", "l06", "l07", "l08", "l09", "l10",
   "l11", "l12", "l13", "l14", "l15"]

/-- A fetch oracle for the cap witness: the seed page discovers 15 links,
every child fetch succeeds. -/
def crawlDemoFetch : String → Except String (SpecPage String) :=
  fun u =>
    if u == "seed" then Except.ok { record := "seedrec", links := crawlDemoLinks }
    else Except.ok { record := u, links := [] }

theorem crawl_caps_children_witness :
    (specCrawl crawlDemoFetch (fun _ => true) "seed" 2).pages.length +
        (specCrawl crawlDemoFetch (fun _ => true) "seed" 2).errors.length = 11 := by
  have h := crawl_caps_children crawlDemoFetch (fun _ => true) "seed" 2
    { record := "seedrec", links := crawlDemoLinks } (by omega) rfl
  rw [h.2.2.2.2]
  decide

/-! ## C6: page-type classification -/

/-- C6: page-type classification is total over the five buckets and is
decided by case-insensitive substring tests on the URL in the fixed
priority order article, issue, archive, about, homepage-default. -/
theorem page_type_total_and_ordered (doc : Doc) (url : String) :
    (determine_page_type doc url = "article" ∨ determine_page_type doc url = "issue" ∨
     determine_page_type doc url = "archive" ∨ determine_page_type doc url = "about" ∨
     determine_page_type doc url = "homepage") ∧
    ((strContains (pyLower url) "/article/" || strContains (pyLower url) "/post/") = true →
      determine_page_type doc url = "article") ∧
    ((strContains (pyLower url) "/article/" || strContains (pyLower url) "/post/") = false →
     (strContains (pyLower url) "/issue/" || strContains (pyLower url) "/issues/") = true →
      determine_page_type doc url = "issue") ∧
    ((strContains (pyLower url) "/article/" || strContains (pyLower url) "/post/") = false →
     (strContains (pyLower url) "/issue/" || strContains (pyLower url) "/issues/") = false →
     (strContains (pyLower url) "/archive" || strContains (pyLower url) "/archives/") = true →
      determine_page_type doc url = "archive") ∧
    ((strContains (pyLower url) "/article/" || strContains (pyLower url) "/post/") = false →
     (strContains (pyLower url) "/issue/" || strContains (pyLower url) "/issues/") = false →
     (strContains (pyLower url) "/archive" || strContains (pyLower url) "/archives/") = false →
     strContains (pyLower url) "about" = true →
      determine_page_type doc url = "about") ∧
    ((strContains (pyLower url) "/article/" || strContains (pyLower url) "/post/") = false →
     (strContains (pyLower url) "/issue/" || strContains (pyLower url) "/issues/") = false →
     (strContains (pyLower url) "/archive" || strContains (pyLower url) "/archives/") = false →
     strContains (pyLower url) "about" = false →
      determine_page_type doc url = "homepage") := by
  unfold determine_page_type
  cases h1 : (strContains (pyLower url) "/article/" || strContains (pyLower url) "/post/") <;>
    cases h2 : (strContains (pyLower url) "/issue/" || strContains (pyLower url) "/issues/") <;>
      cases h3 : (strContains (pyLower url) "/archive" || strContains (pyLower url) "/archives/") <;>
        cases h4 : strContains (pyLower url) "about" <;>
          simp [h1, h2, h3, h4]

theorem page_type_witness :
    determine_page_type [] "https://classicist.org/issues/" = "issue" :=
  (page_type_total_and_ordered [] "https://classicist.org/issues/").2.2.1
    (by decide) (by decide)

/-! ## C7: directory listing extraction -/

/-- Whether a listing item carries a title anchor with a truthy trimmed
name (`if (member.name)`). -/
def itemHasName (it : ListItem) : Bool :=
  !(((it.nameAnchor.map (fun a => pyStrip a.1)).getD "") == "")

/-- The scenario directory page: three listing items, the second missing
its name anchor, the kept ones missing various optional markers. -/
def directoryDemoItems : List ListItem :=
  [ { nameAnchor := some ("Alice ", "https://example.org/m/alice"),
      dataTitle := none, hasCertified := false,
      className := "list-item profession-12" },
    { nameAnchor := none, dataTitle := some "orphan", hasCertified := true,
      className := "list-item chapter-3 level-9" },
    { nameAnchor := some ("Bob", "https://example.org/m/bob"),
      dataTitle := none, hasCertified := false, className := "" } ]

/-- C7: the directory extractor yields exactly one member record per
listing item whose title anchor yields a truthy name and discards the
rest; membership is decided by the name alone, so absent optional markers
only produce default field values.  The demo page with 3 items, one
missing its name anchor, yields exactly 2 records. -/
theorem directory_one_record_per_named_item (items : List ListItem) :
    extract_members items = (items.filter itemHasName).map extractMember ∧
    (extract_members items).length = (items.filter itemHasName).length ∧
    (extract_members directoryDemoItems).length = 2 := by
  have h1 : extract_members items = (items.filter itemHasName).map extractMember := by
    unfold extract_members
    rw [List.filter_map]
    rfl
  exact ⟨h1, by rw [h1, List.length_map], by decide⟩

/-! ## C8: seed-fetch failure handling -/

/-- C8: when the seed fetch raises, both crawl entry points still return
a result: the page/member list is empty and the error list holds exactly
one formatted message containing the seed URL. -/
theorem seed_fetch_failure_isolated {α : Type} (fetchG : String → Except String α)
    (fetchD : String → Except String (List ListItem)) (url eG eD : String)
    (hG : fetchG url = Except.error eG) (hD : fetchD url = Except.error eD) :
    (scrape_generic_page fetchG url).data = [] ∧
    (scrape_generic_page fetchG url).errors.length = 1 ∧
    strContains ((scrape_generic_page fetchG url).errors.headD "") url = true ∧
    (scrape_members_directory fetchD url).members = [] ∧
    (scrape_members_directory fetchD url).errors.length = 1 ∧
    strContains ((scrape_members_directory fetchD url).errors.headD "") url = true := by
  have hmsgG : strContains ("Failed to scrape page " ++ url ++ ": " ++ eG) url = true := by
    have he : "Failed to scrape page " ++ url ++ ": " ++ eG
        = "Failed to scrape page " ++ url ++ (": " ++ eG) := by
      simp [String.append_assoc]
    rw [he]
    exact strContains_middle _ _ _
  have hmsgD : strContains ("Failed to scrape directory " ++ url ++ ": " ++ eD) url = true := by
    have he : "Failed to scrape directory " ++ url ++ ": " ++ eD
        = "Failed to scrape directory " ++ url ++ (": " ++ eD) := by
      simp [String.append_assoc]
    rw [he]
    exact strContains_middle _ _ _
  simp [scrape_generic_page, scrape_members_directory, hG, hD, hmsgG, hmsgD]

theorem seed_fetch_failure_witness :
    (scrape_generic_page (fun _ => (Except.error "Timeout 30000ms exceeded" : Except String Unit))
        "https://classicist.org/").errors.length = 1 ∧
    strContains
      ((scrape_generic_page (fun _ => (Except.error "Timeout 30000ms exceeded" : Except String Unit))
          "https://classicist.org/").errors.headD "")
      "https://classicist.org/" = true := by
  have h := seed_fetch_failure_isolated
    (fun _ => (Except.error "Timeout 30000ms exceeded" : Except String Unit))
    (fun _ => (Except.error "Timeout 30000ms exceeded" : Except String (List ListItem)))
    "https://classicist.org/" "Timeout 30000ms exceeded" "Timeout 30000ms exceeded" rfl rfl
  exact ⟨h.2.1, h.2.2.1⟩

/-! ## C10: social-media platform priority -/

/-- C10: platform classification returns the first platform substring of
the fixed priority list contained in the href, and `other` exactly when
none is contained. -/
theorem platform_priority (href : String) :
    classifyPlatform href = ((socialPlatforms.find? (fun p => strContains href p)).getD "other") ∧
    (classifyPlatform href = "other" ↔ ∀ p ∈ socialPlatforms, strContains href p = false) := by
  cases h1 : strContains href "facebook" <;>
    cases h2 : strContains href "twitter" <;>
      cases h3 : strContains href "linkedin" <;>
        cases h4 : strContains href "instagram" <;>
          cases h5 : strContains href "youtube" <;>
            simp [classifyPlatform, socialPlatforms, List.find?, h1, h2, h3, h4, h5]

theorem platform_priority_witness :
    classifyPlatform "https://twitter.com/share?u=facebook.com" = "facebook" := by
  rw [(platform_priority "https://twitter.com/share?u=facebook.com").1]
  decide

/-! ## C2: the about-field merge -/

theorem aboutQualifies_length {f : Bool} {t : String} (h : aboutQualifies f t = true) :
    50 < t.length := by
  have h0 := (Bool.and_eq_true _ _).mp h
  have h1 := (Bool.and_eq_true _ _).mp h0.1
  have h2 := (Bool.and_eq_true _ _).mp h1.1
  have h3 := (Bool.and_eq_true _ _).mp h2.1
  have h4 := (Bool.and_eq_true _ _).mp h3.1
  exact of_decide_eq_true h4.1

theorem aboutQualifying_cons (c : Bool × String) (cs : List (Bool × String)) :
    aboutQualifying (c :: cs) =
      if aboutQualifies c.1 (pyStrip c.2) then pyStrip c.2 :: aboutQualifying cs
      else aboutQualifying cs := by
  by_cases h : aboutQualifies c.1 (pyStrip c.2) = true
  · simp [aboutQualifying, List.filterMap_cons, h]
  · simp only [Bool.not_eq_true] at h
    simp [aboutQualifying, List.filterMap_cons, h]

theorem aboutMerge_go :
    ∀ (cands : List (Bool × String)) (about : String),
      (about = "" ∨ 50 < about.length) →
      List.foldl
        (fun about c =>
          let text := pyStrip c.2
          if aboutQualifies c.1 text && ((about == "") || decide (about.length < text.length))
          then text else about) about cands
        = List.foldl (fun b t => if b.length < t.length then t else b) about
            (aboutQualifying cands) := by
  intro cands
  induction cands with
  | nil => intro about _; simp [aboutQualifying]
  | cons c cs ih =>
    intro about hinv
    rw [aboutQualifying_cons]
    by_cases hq : aboutQualifies c.1 (pyStrip c.2) = true
    · have hlen := aboutQualifies_length hq
      rw [if_pos hq]
      simp only [List.foldl_cons]
      have hstep :
          (if aboutQualifies c.1 (pyStrip c.2)
                && ((about == "") || decide (about.length < (pyStrip c.2).length))
           then pyStrip c.2 else about)
            = (if about.length < (pyStrip c.2).length then pyStrip c.2 else about) := by
        rcases hinv with he | hl
        · subst he
          have h0 : 0 < (pyStrip c.2).length := by omega
          simp [hq, h0]
        · have hne : about ≠ "" := by
            intro he
            subst he
            simp at hl
          have hb : (about == "") = false := by
            simpa using hne
          by_cases hlt : about.length < (pyStrip c.2).length
          · simp [hq, hb, hlt]
          · simp [hq, hb, hlt]
      rw [hstep]
      by_cases hlt : about.length < (pyStrip c.2).length
      · rw [if_pos hlt]
        exact ih (pyStrip c.2) (Or.inr hlen)
      · rw [if_neg hlt]
        exact ih about hinv
    · simp only [Bool.not_eq_true] at hq
      rw [if_neg (by simp [hq])]
      simp only [List.foldl_cons]
      have hstep :
          (if aboutQualifies c.1 (pyStrip c.2)
                && ((about == "") || decide (about.length < (pyStrip c.2).length))
           then pyStrip c.2 else about) = about := by
        simp [hq]
      rw [hstep]
      exact ih about hinv

/-- C2 (amended): the about-field merge keeps, among the qualifying
trimmed candidate texts, the first one of maximal length: a later
lower-priority candidate replaces the current value exactly when it is
strictly longer, so the highest-priority value is retained only against
candidates of equal or smaller length. -/
theorem about_merge_longest_wins (cands : List (Bool × String)) :
    aboutMerge cands = firstLongest (aboutQualifying cands) := by
  unfold aboutMerge firstLongest
  exact aboutMerge_go cands "" (Or.inl rfl)

/-- A qualifying about candidate of length 52 (the split-on-`s+` quirk
makes its word count 27). -/
def aboutDemoShort : String :=
  "s+s+s+s+s+s+s+s+s+s+s+s+s+s+s+s+s+s+s+s+s+s+s+s+s+s+"

/-- A qualifying about candidate of length 60, offered by a later,
lower-priority selector. -/
def aboutDemoLong : String :=
  "s+s+s+s+s+s+s+s+s+s+s+s+s+s+s+s+s+s+s+s+s+s+s+s+s+s+s+s+s+s+"

/-- C2 counterexample: two non-empty qualifying candidates for the about
field in priority order; the merge returns the later, lower-priority
candidate because it is longer, so the first-wins claim is false. -/
theorem about_merge_counterexample :
    aboutQualifies false (pyStrip aboutDemoShort) = true ∧
    aboutQualifies false (pyStrip aboutDemoLong) = true ∧
    ¬ (pyStrip aboutDemoShort = "") ∧
    ¬ (pyStrip aboutDemoLong = "") ∧
    aboutMerge [(false, aboutDemoShort), (false, aboutDemoLong)] = pyStrip aboutDemoLong ∧
    ¬ (pyStrip aboutDemoLong = pyStrip aboutDemoShort) :=
  ⟨by decide, by decide, by decide, by decide, by decide, by decide⟩

/-! ## C9: address and phone parsing -/

theorem phoneFromRest_eq (ls : List String) :
    phoneFromRest ls = ((ls.find? linePhoneTest).getD "") := by
  induction ls with
  | nil => rfl
  | cons l ls ih =>
    by_cases h : linePhoneTest l = true
    · simp [phoneFromRest, h, List.find?_cons_of_pos]
    · simp only [Bool.not_eq_true] at h
      simp [phoneFromRest, h, List.find?_cons_of_neg, ih]

/-- C9 (amended): the detail extractor splits the address block into
trimmed non-empty lines; the first line's comma-separated fields give the
city (field 0) and the state (field 1, the text between the first and
second commas), both trimmed, whenever at least two fields exist; the
phone is the first subsequent line containing a phone-pattern match. -/
theorem address_parsing (t : String) :
    (parseAddress t).phone = (((addressLines t).drop 1).find? linePhoneTest).getD "" ∧
    (∀ l0 rest, addressLines t = l0 :: rest →
      (2 ≤ (pySplit l0 ",").length →
        (parseAddress t).city = pyStrip ((pySplit l0 ",").getD 0 "") ∧
        (parseAddress t).state = pyStrip ((pySplit l0 ",").getD 1 "")) ∧
      (parseAddress t).phone = (rest.find? linePhoneTest).getD "") ∧
    (addressLines t = [] → parseAddress t = { city := "", state := "", phone := "" }) := by
  refine ⟨?_, ?_, ?_⟩
  · simp [parseAddress, phoneFromRest_eq]
  · intro l0 rest h
    constructor
    · intro hp
      constructor
      · simp [parseAddress, h, hp]
      · simp [parseAddress, h, hp]
    · simp [parseAddress, h, phoneFromRest_eq]
  · intro h
    simp [parseAddress, h, phoneFromRest]

theorem address_parsing_witness :
    (parseAddress "Springfield, IL\n(555) 123-4567").city = "Springfield" ∧
    (parseAddress "Springfield, IL\n(555) 123-4567").state = "IL" ∧
    (parseAddress "Springfield, IL\n(555) 123-4567").phone = "(555) 123-4567" := by
  have h := (address_parsing "Springfield, IL\n(555) 123-4567").2.1
    "Springfield, IL" ["(555) 123-4567"] (by decide)
  have hcs := h.1 (by decide)
  refine ⟨?_, ?_, ?_⟩
  · rw [hcs.1]; decide
  · rw [hcs.2]; decide
  · rw [h.2]; decide

/-- C9 counterexample: on a first line with two commas the code assigns
as state only the field between the first and second commas, not the
text after the first comma that the claim's reading calls for. -/
theorem address_state_counterexample :
    (parseAddress "Springfield, IL, USA\n(555) 123-4567").state = "IL" ∧
    claimStateAfterFirstComma "Springfield, IL, USA" = "IL, USA" ∧
    ¬ ((parseAddress "Springfield, IL, USA\n(555) 123-4567").state
        = claimStateAfterFirstComma "Springfield, IL, USA") :=
  ⟨by decide, by decide, by decide⟩

/-! ## C5: keyword and author deduplication -/

/-- C5 (amended): the keyword list is capped at 20 entries, contains no
two exactly-equal entries and preserves first-occurrence order (it is a
sublist of the candidate stream); the author list contains no two names
that are equal after lower-casing and preserves first-occurrence order. -/
theorem keyword_author_dedup (doc : Doc) (bodyWords patternMatches : List String) :
    (extract_keywords doc bodyWords).length ≤ 20 ∧
    (extract_keywords doc bodyWords).Nodup ∧
    (extract_keywords doc bodyWords).Sublist (keywordCandidates doc bodyWords) ∧
    ((extract_authors doc patternMatches).map (fun p => pyLower p.1)).Nodup ∧
    (extract_authors doc patternMatches).Sublist (authorCandidates doc patternMatches) := by
  refine ⟨List.length_take_le 20 _, ?_, ?_, ?_, ?_⟩
  · exact List.Nodup.sublist (List.take_sublist 20 _) (dedupFirst_nodup _)
  · exact (List.take_sublist 20 _).trans (dedupFirst_sublist _)
  · exact dedupByLowerAux_lower_nodup _ []
  · exact dedupByLowerAux_sublist _ []

/-- A document whose meta keywords content is `Rome, rome`. -/
def keywordDemoDoc : Doc :=
  [Node.elem "head" [] [Node.elem "meta" [("name", "keywords"), ("content", "Rome, rome")] []]]

/-- C5 counterexample: keyword deduplication is case-sensitive, so two
entries that are equal under case-insensitive comparison both survive
extraction. -/
theorem keyword_case_dedup_counterexample :
    extract_keywords keywordDemoDoc [] = ["Rome", "rome"] ∧
    pyLower "Rome" = pyLower "rome" ∧
    ¬ ("Rome" = "rome") :=
  ⟨by decide, by decide, by decide⟩

/-! ## C3: the Content Locator -/

theorem joinSep_empty_length_le (sep : String) :
    ∀ l : List String, (joinSep "" l).length ≤ (joinSep sep l).length := by
  intro l
  induction l with
  | nil => exact Nat.le_refl _
  | cons s rest ih =>
    cases rest with
    | nil => exact Nat.le_refl _
    | cons r rest2 =>
      have h1 : joinSep "" (s :: r :: rest2) = s ++ "" ++ joinSep "" (r :: rest2) := rfl
      have h2 : joinSep sep (s :: r :: rest2) = s ++ sep ++ joinSep sep (r :: rest2) := rfl
      rw [h1, h2]
      simp only [String.length_append]
      have h0 : ("" : String).length = 0 := rfl
      omega

theorem stripText_length_le_nodeText (n : Node) :
    (stripText n).length ≤ (nodeText n).length := by
  unfold stripText nodeText getTextParts
  exact joinSep_empty_length_le "\n" _

theorem string_ne_empty_of_length_pos {s : String} (h : 0 < s.length) : s ≠ "" := by
  intro he
  subst he
  simp at h

theorem firstMaxBy_mem (f : Node → Nat) :
    ∀ (xs : List Node) (x : Node), firstMaxBy f x xs ∈ x :: xs := by
  intro xs
  induction xs with
  | nil => intro x; simp [firstMaxBy]
  | cons y ys ih =>
    intro x
    have hstep : firstMaxBy f x (y :: ys) = firstMaxBy f (if f y > f x then y else x) ys := by
      simp [firstMaxBy, List.foldl_cons]
    rw [hstep]
    have hmem := ih (if f y > f x then y else x)
    rcases List.mem_cons.mp hmem with he | hm
    · rw [he]
      by_cases hc : f y > f x
      · rw [if_pos hc]
        exact List.mem_cons_of_mem x (List.mem_cons_self y ys)
      · rw [if_neg hc]
        exact List.mem_cons_self x (y :: ys)
    · exact List.mem_cons_of_mem x (List.mem_cons_of_mem y hm)

/-- C3 (amended): when no structural content selector matches the
document, the Content Locator returns the text of the first largest
paragraph-like block whose stripped text exceeds 100 characters — a
non-empty string — and the whole document's text when no block
qualifies.  (When a structural selector does match, the matched
container's cleaned text is returned as is, and it can be empty even
though a long paragraph exists elsewhere; see the counterexample.) -/
theorem content_locator_fallback (doc : Doc)
    (hsel : ∀ s ∈ content_selectors, (selectOne doc s).isNone = true) :
    (bigElems doc = [] →
      extract_main_content doc = getTextParts "\n" (stringsL (prunedDoc doc))) ∧
    (∀ e es, bigElems doc = e :: es →
      extract_main_content doc
          = nodeText (firstMaxBy (fun n => (stripText n).length) e es) ∧
        ¬ extract_main_content doc = "") := by
  have hnone : content_selectors.findSome? (fun s => selectOne doc s) = none :=
    List.findSome?_eq_none_iff.mpr (fun s hs => Option.isNone_iff_eq_none.mp (hsel s hs))
  have hmain : extract_main_content doc = extract_largest_text_block doc := by
    simp [extract_main_content, hnone]
  constructor
  · intro h
    rw [hmain]
    simp [extract_largest_text_block, h]
  · intro e es h
    have hres : extract_main_content doc
        = nodeText (firstMaxBy (fun n => (stripText n).length) e es) := by
      rw [hmain]
      simp [extract_largest_text_block, h]
    refine ⟨hres, ?_⟩
    have hmem : firstMaxBy (fun n => (stripText n).length) e es ∈ e :: es :=
      firstMaxBy_mem _ es e
    rw [← h] at hmem
    have hfil := (List.mem_filter.mp hmem).2
    have hsplit := (Bool.and_eq_true _ _).mp hfil
    have hlen : 100 < (stripText (firstMaxBy (fun n => (stripText n).length) e es)).length :=
      of_decide_eq_true hsplit.2
    have hle := stripText_length_le_nodeText (firstMaxBy (fun n => (stripText n).length) e es)
    rw [hres]
    exact string_ne_empty_of_length_pos (by omega)

/-- A prose paragraph longer than 100 characters. -/
def longParagraph : String :=
  "This is a fairly long paragraph body whose stripped text easily exceeds the one hundred character threshold used by the fallback."

/-- A document with no structural container, only a long paragraph. -/
def contentDemoDoc : Doc :=
  [Node.elem "body" [] [Node.elem "p" [] [Node.text longParagraph]]]

set_option maxRecDepth 4096 in
theorem content_locator_fallback_witness :
    extract_main_content contentDemoDoc
        = nodeText (Node.elem "p" [] [Node.text longParagraph]) ∧
      ¬ extract_main_content contentDemoDoc = "" := by
  have h := (content_locator_fallback contentDemoDoc (by decide)).2
    (Node.elem "p" [] [Node.text longParagraph]) [] rfl
  exact h

/-- The claim's premise as the code measures it: some paragraph-like
element has stripped text longer than 100 characters. -/
def hasBigParagraph (doc : Doc) : Bool :=
  (elemsL doc).any
    (fun e => ["p", "div", "section", "article"].contains e.tagOf
      && decide (100 < (stripText e).length))

/-- A document whose first structural match (`main`) is empty while a
long paragraph sits outside of it. -/
def emptyMainDoc : Doc :=
  [Node.elem "html" [] [Node.elem "body" []
    [Node.elem "main" [] [], Node.elem "p" [] [Node.text longParagraph]]]]

set_option maxRecDepth 4096 in
/-- C3 counterexample: a document that does contain a paragraph-like
element with more than 100 characters, for which the Content Locator
nevertheless returns the empty string, because the structural selector
`main` matches an empty container first. -/
theorem content_locator_counterexample :
    hasBigParagraph emptyMainDoc = true ∧ extract_main_content emptyMainDoc = "" :=
  ⟨by decide, by decide⟩

/-! ## C4: the metadata merge -/

/-- The content a meta tag contributes under key `k` in the meta loop,
if any. -/
def contentSelect (k : String) (e : Node) : Option String :=
  match metaKeyContent e with
  | some kc => if kc.1 == k then some kc.2 else none
  | none => none

/-- The contents of the meta tags whose effective key is `k`, in document
order. -/
def contentsFor (doc : Doc) (k : String) : List String :=
  (metasOf doc).filterMap (contentSelect k)

/-- The last element of a list of strings, if any. -/
def lastOf : List String → Option String
  | [] => none
  | [x] => some x
  | _ :: xs => lastOf xs

theorem lastOf_cons_cons (x y : String) (l : List String) :
    lastOf (x :: y :: l) = lastOf (y :: l) := rfl

theorem lastOf_cons_exists (y : String) (l : List String) :
    ∃ v, lastOf (y :: l) = some v := by
  induction l generalizing y with
  | nil => exact ⟨y, rfl⟩
  | cons z zs ih => simpa [lastOf_cons_cons] using ih z

theorem find?_map_replace (k v : String) :
    ∀ m : List (String × String), m.any (fun p => p.1 == k) = true →
      (m.map (fun p => if p.1 == k then (k, v) else p)).find? (fun p => p.1 == k)
        = some (k, v) := by
  intro m
  induction m with
  | nil => intro h; simp at h
  | cons c m ih =>
    intro h
    by_cases hc : (c.1 == k) = true
    · have hhead : (if (c.1 == k) = true then (k, v) else c) = (k, v) := if_pos hc
      rw [List.map_cons, hhead, List.find?_cons]
      simp
    · have hcf : (c.1 == k) = false := by simpa using hc
      have hhead : (if (c.1 == k) = true then (k, v) else c) = c := if_neg hc
      rw [List.map_cons, hhead]
      simp only [List.find?_cons, hcf]
      simp only [List.any_cons, Bool.or_eq_true] at h
      rcases h with h | h
      · exact absurd h hc
      · exact ih h

theorem find?_map_replace_ne (k v k' : String) (hne : ¬ (k' = k)) :
    ∀ m : List (String × String),
      (m.map (fun p => if p.1 == k then (k, v) else p)).find? (fun p => p.1 == k')
        = m.find? (fun p => p.1 == k') := by
  intro m
  induction m with
  | nil => simp
  | cons c m ih =>
    by_cases hc : (c.1 == k) = true
    · have hceq : c.1 = k := by simpa using hc
      have hhead : (if (c.1 == k) = true then (k, v) else c) = (k, v) := if_pos hc
      have hp1 : ((k : String) == k') = false := by
        simp only [beq_eq_false_iff_ne, ne_eq]
        intro he
        exact hne he.symm
      have hp2 : (c.1 == k') = false := by rw [hceq]; exact hp1
      rw [List.map_cons, hhead]
      simp only [List.find?_cons, hp1, hp2]
      exact ih
    · have hhead : (if (c.1 == k) = true then (k, v) else c) = c := if_neg hc
      rw [List.map_cons, hhead]
      by_cases hm : (c.1 == k') = true
      · simp only [List.find?_cons, hm]
      · have hmf : (c.1 == k') = false := by simpa using hm
        simp only [List.find?_cons, hmf]
        exact ih

theorem dictGet_dictInsert_self (m : List (String × String)) (k v : String) :
    dictGet (dictInsert m k v) k = some v := by
  unfold dictInsert
  by_cases hany : m.any (fun p => p.1 == k) = true
  · rw [if_pos hany]
    unfold dictGet
    rw [find?_map_replace k v m hany]
    rfl
  · rw [if_neg hany]
    unfold dictGet
    rw [List.find?_append]
    have hnone : m.find? (fun p => p.1 == k) = none := by
      rw [List.find?_eq_none]
      intro x hx
      intro hcon
      exact hany (List.any_eq_true.mpr ⟨x, hx, hcon⟩)
    have h2 : [((k, v))].find? (fun p => p.1 == k) = some (k, v) :=
      List.find?_cons_of_pos _ (by simp)
    rw [hnone, h2]
    rfl

theorem dictGet_dictInsert_ne (m : List (String × String)) (k v k' : String)
    (hne : ¬ (k' = k)) :
    dictGet (dictInsert m k v) k' = dictGet m k' := by
  unfold dictInsert
  by_cases hany : m.any (fun p => p.1 == k) = true
  · rw [if_pos hany]
    unfold dictGet
    rw [find?_map_replace_ne k v k' hne m]
  · rw [if_neg hany]
    unfold dictGet
    rw [List.find?_append]
    have h1 : ([(k, v)].find? (fun p => p.1 == k')) = none := by
      have hp : ((k : String) == k') = false := by
        simp only [beq_eq_false_iff_ne, ne_eq]
        intro he
        exact hne he.symm
      simp only [List.find?_cons, hp]
      rfl
    rw [h1]
    cases m.find? (fun p => p.1 == k') <;> rfl

/-- The per-key effect of the meta loop on the stored mapping. -/
theorem dictGet_metaFold (k : String) :
    ∀ (ps : List Node) (m : List (String × String)),
      dictGet (ps.foldl metaFoldStep m) k =
        match lastOf (ps.filterMap (contentSelect k)) with
        | some v => some v
        | none => dictGet m k := by
  intro ps
  induction ps with
  | nil => intro m; rfl
  | cons e ps ih =>
    intro m
    rw [List.foldl_cons]
    cases hm : metaKeyContent e with
    | none =>
      have hstep : metaFoldStep m e = m := by simp [metaFoldStep, hm]
      have hcs : contentSelect k e = none := by simp [contentSelect, hm]
      rw [hstep, ih m]
      simp only [List.filterMap_cons, hcs]
    | some kc =>
      by_cases hk : (kc.1 == k) = true
      · have hkeq : kc.1 = k := by simpa using hk
        have hstep : metaFoldStep m e = dictInsert m k kc.2 := by
          simp [metaFoldStep, hm, hkeq]
        have hcs : contentSelect k e = some kc.2 := by
          simp [contentSelect, hm, hk]
        rw [hstep, ih (dictInsert m k kc.2)]
        simp only [List.filterMap_cons, hcs]
        cases hcl : ps.filterMap (contentSelect k) with
        | nil => simp [lastOf, dictGet_dictInsert_self]
        | cons z zs =>
          obtain ⟨v, hv⟩ := lastOf_cons_exists z zs
          rw [lastOf_cons_cons, hv]
      · have hkne : ¬ (k = kc.1) := by
          intro he
          exact hk (by simp [he])
        have hstep : metaFoldStep m e = dictInsert m kc.1 kc.2 := by
          simp [metaFoldStep, hm]
        have hcs : contentSelect k e = none := by
          simp [contentSelect, hm, hk]
        rw [hstep, ih (dictInsert m kc.1 kc.2)]
        simp only [List.filterMap_cons, hcs]
        rw [dictGet_dictInsert_ne m kc.1 kc.2 k hkne]

/-- C4 (amended): the meta-tag merge is last-wins for every key other
than `author` and `date`: when the meta tags with effective key `k` have
contents ending in `v`, the returned mapping holds `v` under `k`.  (For
`author` and `date` the dedicated selector cascades run afterwards and
overwrite the entry with their own first match; see the counterexample.) -/
theorem meta_merge_last_wins (doc : Doc) (k v : String)
    (hka : ¬ (k = "author")) (hkd : ¬ (k = "date"))
    (hlast : lastOf (contentsFor doc k) = some v) :
    dictGet (extract_metadata doc) k = some v := by
  have hm2 : ∀ m : List (String × String),
      dictGet ((metasOf doc).foldl metaFoldStep m) k = some v := by
    intro m
    rw [dictGet_metaFold k (metasOf doc) m]
    have hcf : contentsFor doc k = (metasOf doc).filterMap (contentSelect k) := rfl
    rw [hcf] at hlast
    rw [hlast]
  unfold extract_metadata
  cases hau : author_selectors.findSome? (fun s => selectOne doc s) with
  | none =>
    cases hda : date_selectors.findSome? (fun s => selectOne doc s) with
    | none => simp only [hau, hda]; exact hm2 _
    | some el => simp only [hau, hda]; rw [dictGet_dictInsert_ne _ _ _ _ hkd]; exact hm2 _
  | some el =>
    cases hda : date_selectors.findSome? (fun s => selectOne doc s) with
    | none =>
      simp only [hau, hda]
      rw [dictGet_dictInsert_ne _ _ _ _ hka]
      exact hm2 _
    | some el2 =>
      simp only [hau, hda]
      rw [dictGet_dictInsert_ne _ _ _ _ hkd, dictGet_dictInsert_ne _ _ _ _ hka]
      exact hm2 _

/-- A document with two meta tags sharing the key `subject`. -/
def metaDemoDoc : Doc :=
  [Node.elem "head" []
    [Node.elem "meta" [("name", "subject"), ("content", "First")] [],
     Node.elem "meta" [("name", "subject"), ("content", "Second")] []]]

theorem meta_merge_last_wins_witness :
    dictGet (extract_metadata metaDemoDoc) "subject" = some "Second" :=
  meta_merge_last_wins metaDemoDoc "subject" "Second" (by decide) (by decide) (by decide)

/-- A document with two meta tags sharing the key `author`. -/
def metaAuthorDoc : Doc :=
  [Node.elem "head" []
    [Node.elem "meta" [("name", "author"), ("content", "Alice")] [],
     Node.elem "meta" [("name", "author"), ("content", "Bob")] []]]

/-- C4 counterexample: for key `author` the mapping holds the first
tag's content, not the second's — the author selector cascade
overwrites the meta-loop entry with its first match. -/
theorem meta_author_counterexample :
    contentsFor metaAuthorDoc "author" = ["Alice", "Bob"] ∧
    dictGet (extract_metadata metaAuthorDoc) "author" = some "Alice" ∧
    ¬ (dictGet (extract_metadata metaAuthorDoc) "author" = some "Bob") :=
  ⟨by decide, by decide, by decide⟩

end ClassicistScraper
